import Mathlib

/-!
Verification of the Audit & Authorization subsystem of laboratory-lims-pro.

The repository ships the RBAC usage examples (`RBAC_EXAMPLES.ts.example`),
the workflow/API documentation and a migration; the bodies of the
PermissionEngine (`can`), AuditService (ChangeDiffer / AuditRecorder /
AuditQuery) and the trigger backstop are described by the specification and
the documentation but are not present as source files.  Where a definition
below embeds code that is present (for example `releaseReport`) its doc
comment names the source location; where the code is absent the definition
is modelled from the specification and says so.
-/

namespace Lims

/-! ## Values and normalized equality (ChangeDiffer data domain) -/

/-- Modelled from the spec: field values stored in record snapshots.
`vTime` carries an instant together with a serialization offset so that two
different serializations of the same instant are distinct representations
of equal values (spec 4.1: equality for diffing is value-based and
implementers normalize types before comparison). -/
inductive Value where
  | vNull
  | vStr (s : String)
  | vInt (n : Int)
  | vBool (b : Bool)
  | vTime (instant : Nat) (tzOffset : Int)
deriving DecidableEq, Repr

/-- Modelled from the spec: normalization of a value before comparison;
timestamps are reduced to their instant. -/
def normValue : Value → Value
  | .vTime i _ => .vTime i 0
  | v => v

/-- Modelled from the spec: value-based equality after normalization. -/
def normEq (a b : Value) : Bool := decide (normValue a = normValue b)

/-- A record snapshot: a total assignment of values to field names, with
`vNull` standing for an absent or null field. -/
def Snapshot : Type := String → Value

/-- One entry of the `changes` mapping: the old and new value of a field. -/
structure Change where
  old : Value
  new : Value
deriving DecidableEq, Repr

/-- Value of an optional snapshot at a field (`none` is the null snapshot
used for the missing side of CREATE and DELETE). -/
def snapVal : Option Snapshot → String → Value
  | none, _ => .vNull
  | some s, f => s f

/-- Modelled from the spec (4.1 ChangeDiffer): given the governed field
list and the before/after snapshots (`none` for CREATE resp. DELETE),
produce the `changes` mapping; a field is recorded exactly when its
normalized values differ, and the raw old/new values are recorded. -/
def diffChanges (fields : List String) (before after : Option Snapshot) :
    List (String × Change) :=
  fields.filterMap (fun f =>
    let o := snapVal before f
    let n := snapVal after f
    if normEq o n then none else some (f, ⟨o, n⟩))

/-- Apply the recorded `new` values of a changes mapping to a base
snapshot (used to state the round-trip property). -/
def applyChanges (base : Snapshot) (cs : List (String × Change)) : Snapshot :=
  fun f =>
    match cs.find? (fun c => c.1 == f) with
    | some c => c.2.new
    | none => base f

/-! ## Roles, actions, resources, permission engine -/

/-- Closed role enumeration (spec 3). -/
inductive Role where
  | ADMIN
  | LAB_MANAGER
  | ANALYST
  | SALES_ACCOUNTING
  | CLIENT
deriving DecidableEq, Repr

/-- Closed action enumeration (spec 3). -/
inductive Action where
  | CREATE
  | READ
  | UPDATE
  | DELETE
  | ASSIGN
  | GENERATE_DRAFT
  | FINALIZE
  | RELEASE
deriving DecidableEq, Repr

/-- Closed resource enumeration (spec 3). -/
inductive Resource where
  | SAMPLE
  | TEST
  | REPORT
  | TEMPLATE
  | AUDIT_LOG
deriving DecidableEq, Repr

/-- Report workflow status (source: RBAC_EXAMPLES.ts.example, status
strings DRAFT / FINALIZED / RELEASED). -/
inductive ReportStatus where
  | DRAFT
  | FINALIZED
  | RELEASED
deriving DecidableEq, Repr

/-- An actor: identity plus role (spec 6, actor context). -/
structure Actor where
  id : String
  role : Role
deriving DecidableEq, Repr

/-- Ephemeral decision produced by the permission engine (spec 3). -/
structure PermissionDecision where
  allowed : Bool
  reason : Option String
deriving DecidableEq, Repr

/-- Outcome of the static capability table (spec 4.5 tier 1). -/
inductive Cap where
  | allow
  | allowWithContext
  | deny
deriving DecidableEq, Repr

/-- Modelled from the spec: the static capability table
(role x action x resource); entries are taken from the spec's context
rules, the role comments in RBAC_EXAMPLES.ts.example and the role matrix
of the workflow documentation; every unlisted combination is `deny`
(fail-closed). -/
def caps (r : Role) (a : Action) (res : Resource) : Cap :=
  match r, a, res with
  | .ADMIN, _, _ => .allow
  | .LAB_MANAGER, .CREATE, .SAMPLE => .allow
  | .LAB_MANAGER, .READ, .SAMPLE => .allow
  | .LAB_MANAGER, .UPDATE, .SAMPLE => .allow
  | .LAB_MANAGER, .ASSIGN, .TEST => .allow
  | .LAB_MANAGER, .READ, .TEST => .allow
  | .LAB_MANAGER, .UPDATE, .TEST => .allow
  | .LAB_MANAGER, .RELEASE, .TEST => .allow
  | .LAB_MANAGER, .READ, .REPORT => .allow
  | .LAB_MANAGER, .FINALIZE, .REPORT => .allow
  | .LAB_MANAGER, .RELEASE, .REPORT => .allow
  | .LAB_MANAGER, .READ, .AUDIT_LOG => .allow
  | .LAB_MANAGER, .READ, .TEMPLATE => .allow
  | .LAB_MANAGER, .CREATE, .TEMPLATE => .allow
  | .LAB_MANAGER, .UPDATE, .TEMPLATE => .allow
  | .LAB_MANAGER, .DELETE, .TEMPLATE => .allow
  | .ANALYST, .CREATE, .SAMPLE => .allow
  | .ANALYST, .READ, .SAMPLE => .allowWithContext
  | .ANALYST, .UPDATE, .SAMPLE => .allowWithContext
  | .ANALYST, .READ, .TEST => .allow
  | .ANALYST, .UPDATE, .TEST => .allow
  | .ANALYST, .GENERATE_DRAFT, .REPORT => .allow
  | .ANALYST, .READ, .TEMPLATE => .allow
  | .SALES_ACCOUNTING, .READ, .SAMPLE => .allow
  | .SALES_ACCOUNTING, .READ, .REPORT => .allow
  | .CLIENT, .READ, .SAMPLE => .allowWithContext
  | .CLIENT, .READ, .REPORT => .allowWithContext
  | _, _, _ => .deny

/-- Record context supplied to tier-2 refinement: the ownership fields of
a sample, or the status and owning sample's client of a report. -/
inductive RecordCtx where
  | sample (assignedUserId clientId : Option String)
  | report (status : ReportStatus) (sampleClientId : Option String)
deriving DecidableEq, Repr

/-- Modelled from the spec (4.5 tier 2): resource-specific ownership
refinement, applied only when the capability check yields
allow-with-context and a record is supplied. -/
def contextCheck (actor : Actor) (a : Action) (res : Resource)
    (rec : RecordCtx) : PermissionDecision :=
  match res, a, actor.role, rec with
  | .SAMPLE, .READ, .ANALYST, .sample au _ =>
      if au = some actor.id then ⟨true, none⟩
      else ⟨false, some "role ANALYST cannot access unassigned sample"⟩
  | .SAMPLE, .UPDATE, .ANALYST, .sample au _ =>
      if au = some actor.id then ⟨true, none⟩
      else ⟨false, some "role ANALYST cannot access unassigned sample"⟩
  | .SAMPLE, .READ, .CLIENT, .sample _ cl =>
      if cl = some actor.id then ⟨true, none⟩
      else ⟨false, some "role CLIENT can only access own samples"⟩
  | .REPORT, .READ, .CLIENT, .report st scl =>
      if st = .RELEASED ∧ scl = some actor.id then ⟨true, none⟩
      else ⟨false, some "role CLIENT can only read released reports of own samples"⟩
  | _, _, _, _ => ⟨true, none⟩

/-- Modelled from the spec (4.5): the two-tier permission evaluation.
Tier 1 consults the static capability table; `deny` is final, `allow`
stands, and `allowWithContext` is refined by `contextCheck` when a record
is supplied and stands as the coarse allow otherwise. -/
def evaluate (actor : Actor) (a : Action) (res : Resource)
    (rec : Option RecordCtx) : PermissionDecision :=
  match caps actor.role a res with
  | .deny => ⟨false, some "permission denied"⟩
  | .allow => ⟨true, none⟩
  | .allowWithContext =>
      match rec with
      | none => ⟨true, none⟩
      | some r => contextCheck actor a res r

/-! ## Report release (source: RBAC_EXAMPLES.ts.example, releaseReport) -/

/-- A report row: identifier, workflow status, release timestamp. -/
structure Report where
  id : String
  status : ReportStatus
  releasedAt : Option Nat
deriving DecidableEq, Repr

/-- Errors thrown by `releaseReport` in the source: NotFoundException and
ForbiddenException. -/
inductive HttpError where
  | notFound (msg : String)
  | forbidden (msg : String)
deriving DecidableEq, Repr

/-- `prisma.report.findUnique({ where: { id } })`: first report with the
given id. -/
def findUnique (db : List Report) (id : String) : Option Report :=
  db.find? (fun r => r.id == id)

/-- Source: RBAC_EXAMPLES.ts.example lines 309-333 (`releaseReport`).
Look up the report; missing reports raise NotFoundException, reports not
in FINALIZED status raise ForbiddenException, otherwise the report's
status is set to RELEASED and releasedAt is stamped. -/
def releaseReport (db : List Report) (id : String) (now : Nat) :
    Except HttpError (List Report) :=
  match findUnique db id with
  | none => .error (.notFound "Report not found")
  | some r =>
      if r.status ≠ ReportStatus.FINALIZED then
        .error (.forbidden "Report must be finalized before release")
      else
        .ok (db.map (fun x =>
          if x.id == id then { x with status := .RELEASED, releasedAt := some now } else x))

/-! ## Audit entries, recorder, immutability, query -/

/-- Audit action enumeration (spec 3). -/
inductive AuditAction where
  | CREATE
  | UPDATE
  | DELETE
deriving DecidableEq, Repr

/-- An audit entry (spec 3); `atTime` embeds the `at` timestamp. -/
structure AuditEntry where
  id : String
  actorId : Option String
  actorEmail : Option String
  action : AuditAction
  table : String
  recordId : String
  changes : List (String × Change)
  reason : Option String
  atTime : Nat
  txId : Option String
  ip : Option String
  userAgent : Option String
deriving DecidableEq, Repr

/-- Request context metadata accompanying a governed operation (spec 6). -/
structure RequestCtx where
  ip : Option String
  userAgent : Option String
  reason : Option String
deriving DecidableEq, Repr

/-- Build an audit entry from its parts (shared by the recorder
operations). -/
def mkEntry (eid : String) (actor : Actor) (actorEmail : Option String)
    (act : AuditAction) (table recordId : String)
    (cs : List (String × Change)) (ctx : RequestCtx) (txId : Option String)
    (now : Nat) : AuditEntry :=
  { id := eid, actorId := some actor.id, actorEmail := actorEmail,
    action := act, table := table, recordId := recordId, changes := cs,
    reason := ctx.reason, atTime := now, txId := txId, ip := ctx.ip,
    userAgent := ctx.userAgent }

/-- Modelled from the spec (4.2 AuditRecorder.logCreate): the CREATE entry
built via ChangeDiffer(null, newValues). -/
def logCreateEntry (eid : String) (actor : Actor) (actorEmail : Option String)
    (table recordId : String) (fields : List String) (newValues : Snapshot)
    (ctx : RequestCtx) (txId : Option String) (now : Nat) : AuditEntry :=
  mkEntry eid actor actorEmail .CREATE table recordId
    (diffChanges fields none (some newValues)) ctx txId now

/-- Modelled from the spec (4.2 AuditRecorder.logDelete): the DELETE entry
built via ChangeDiffer(oldValues, null). -/
def logDeleteEntry (eid : String) (actor : Actor) (actorEmail : Option String)
    (table recordId : String) (fields : List String) (oldValues : Snapshot)
    (ctx : RequestCtx) (txId : Option String) (now : Nat) : AuditEntry :=
  mkEntry eid actor actorEmail .DELETE table recordId
    (diffChanges fields (some oldValues) none) ctx txId now

/-- Modelled from the spec (4.2 AuditRecorder.logCreate): persist the
CREATE entry by appending it to the store. -/
def logCreate (eid : String) (actor : Actor) (actorEmail : Option String)
    (table recordId : String) (fields : List String) (newValues : Snapshot)
    (ctx : RequestCtx) (txId : Option String) (now : Nat)
    (store : List AuditEntry) : List AuditEntry :=
  logCreateEntry eid actor actorEmail table recordId fields newValues ctx txId now :: store

/-- Modelled from the spec (4.2 AuditRecorder.logUpdate): build the UPDATE
entry from the field-level diff; when the diff is empty no entry is
written and the store is returned unchanged. -/
def logUpdate (eid : String) (actor : Actor) (actorEmail : Option String)
    (table recordId : String) (fields : List String)
    (oldValues newValues : Snapshot) (ctx : RequestCtx) (txId : Option String)
    (now : Nat) (store : List AuditEntry) : List AuditEntry :=
  let cs := diffChanges fields (some oldValues) (some newValues)
  if cs.isEmpty then store
  else mkEntry eid actor actorEmail .UPDATE table recordId cs ctx txId now :: store

/-- Modelled from the spec (4.2 AuditRecorder.logDelete): persist the
DELETE entry by appending it to the store. -/
def logDelete (eid : String) (actor : Actor) (actorEmail : Option String)
    (table recordId : String) (fields : List String) (oldValues : Snapshot)
    (ctx : RequestCtx) (txId : Option String) (now : Nat)
    (store : List AuditEntry) : List AuditEntry :=
  logDeleteEntry eid actor actorEmail table recordId fields oldValues ctx txId now :: store

/-- Structural error of the audit persistence layer (spec 7). -/
inductive AuditStoreError where
  | immutableEntryViolation
deriving DecidableEq, Repr

/-- Modelled from the spec (3, 7): the persistence layer rejects in-place
mutation of an existing audit entry with ImmutableEntryViolation; an
update attempt naming no existing entry changes nothing. -/
def updateEntry (store : List AuditEntry) (id : String) (_e : AuditEntry) :
    Except AuditStoreError (List AuditEntry) :=
  if store.any (fun x => x.id == id) then .error .immutableEntryViolation
  else .ok store

/-- Modelled from the spec (3, 7): the persistence layer rejects deletion
of an existing audit entry with ImmutableEntryViolation; a delete attempt
naming no existing entry changes nothing. -/
def deleteEntry (store : List AuditEntry) (id : String) :
    Except AuditStoreError (List AuditEntry) :=
  if store.any (fun x => x.id == id) then .error .immutableEntryViolation
  else .ok store

/-- Failure of an audit write inside a governed transaction (spec 7). -/
inductive AuditWriteFailure where
  | storageFault
deriving DecidableEq, Repr

/-- The transactional state of a governed operation: the business state
together with the audit store. -/
structure TxDb (α : Type) where
  biz : α
  audit : List AuditEntry
deriving Repr

/-- Modelled from the spec (4.2, 5): fallible persistence of one audit
entry; `fault` abstracts a storage/serialization fault. -/
def persistAudit (fault : Bool) (e : AuditEntry) (store : List AuditEntry) :
    Except AuditWriteFailure (List AuditEntry) :=
  if fault then .error .storageFault else .ok (e :: store)

/-- Modelled from the spec (5): a governed operation runs the business
mutation and the audit write inside one transaction; a failed audit write
aborts the whole unit, so the caller's state is not replaced and no
mutation commits without its audit entry. -/
def runGoverned {α : Type} (mutate : α → α) (e : AuditEntry) (fault : Bool)
    (db : TxDb α) : Except AuditWriteFailure (TxDb α) :=
  match persistAudit fault e db.audit with
  | .error er => .error er
  | .ok audit' => .ok ⟨mutate db.biz, audit'⟩

/-- Query filters, all optional, conjunctive (spec 4.4). -/
structure AuditFilters where
  table : Option String
  recordId : Option String
  actorId : Option String
  action : Option AuditAction
  fromDate : Option Nat
  toDate : Option Nat
  txId : Option String
deriving Repr

/-- Modelled from the spec (4.4): an entry matches a filter set when it
satisfies every supplied filter (AND semantics). -/
def matchesFilters (ft : AuditFilters) (e : AuditEntry) : Bool :=
  (match ft.table with | none => true | some t => decide (e.table = t)) &&
  (match ft.recordId with | none => true | some r => decide (e.recordId = r)) &&
  (match ft.actorId with | none => true | some a => decide (e.actorId = some a)) &&
  (match ft.action with | none => true | some a => decide (e.action = a)) &&
  (match ft.fromDate with | none => true | some d => decide (d ≤ e.atTime)) &&
  (match ft.toDate with | none => true | some d => decide (e.atTime ≤ d)) &&
  (match ft.txId with | none => true | some t => decide (e.txId = some t))

/-- Newest-first ordering on audit entries. -/
def newerEq (a b : AuditEntry) : Prop := b.atTime ≤ a.atTime

instance : DecidableRel newerEq := fun a b => Nat.decLe b.atTime a.atTime

instance : IsTotal AuditEntry newerEq := ⟨fun a b => Nat.le_total b.atTime a.atTime⟩

instance : IsTrans AuditEntry newerEq := ⟨fun _ _ _ h1 h2 => Nat.le_trans h2 h1⟩

/-- One result page of the audit query (spec 4.4). -/
structure AuditPage where
  logs : List AuditEntry
  total : Nat
  page : Nat
  perPage : Nat
  totalPages : Nat
deriving Repr

/-- Modelled from the spec (4.4 AuditQuery.query): filter the store by the
conjunctive filters, order newest-first, and return the requested page
together with total count and page metadata.  The function is pure: it
never mutates the store. -/
def auditQuery (store : List AuditEntry) (ft : AuditFilters)
    (page perPage : Nat) : AuditPage :=
  let matched := store.filter (matchesFilters ft)
  let sorted := matched.insertionSort newerEq
  let total := matched.length
  { logs := (sorted.drop ((page - 1) * perPage)).take perPage,
    total := total, page := page, perPage := perPage,
    totalPages := (total + perPage - 1) / perPage }

/-! ## Theorems: permission engine -/

/-- Claim C1: `evaluate` is total (a total Lean function by construction)
and fail-closed: for every (role, action, resource) triple that the static
capability table does not list as allow or allow-with-context, `evaluate`
returns a decision with `allowed = false`, whatever record is supplied. -/
theorem evaluate_fail_closed (actor : Actor) (a : Action) (res : Resource)
    (rec : Option RecordCtx) (h : caps actor.role a res = Cap.deny) :
    (evaluate actor a res rec).allowed = false := by
  simp [evaluate, h]

/-- Witness for C1: CLIENT/DELETE/SAMPLE is unlisted, hence denied. -/
theorem evaluate_fail_closed_witness :
    caps Role.CLIENT Action.DELETE Resource.SAMPLE = Cap.deny ∧
    (evaluate ⟨"u1", Role.CLIENT⟩ Action.DELETE Resource.SAMPLE none).allowed = false :=
  ⟨by decide,
   evaluate_fail_closed ⟨"u1", Role.CLIENT⟩ Action.DELETE Resource.SAMPLE none (by decide)⟩

/-- Claim C7: context refinement is monotone with respect to the coarse
capability decision: a capability deny is final whatever record is
supplied, and an allow-with-context with no record supplied stands as the
coarse allow. -/
theorem contextRefinement_monotone (actor : Actor) (a : Action)
    (res : Resource) (rec : Option RecordCtx) :
    (caps actor.role a res = Cap.deny → (evaluate actor a res rec).allowed = false) ∧
    (caps actor.role a res = Cap.allowWithContext →
      (evaluate actor a res none).allowed = true) := by
  constructor <;> intro h <;> simp [evaluate, h]

/-- Witness for C7: a CLIENT delete on a sample record is denied, and an
ANALYST sample read without a record keeps the coarse allow. -/
theorem contextRefinement_monotone_witness :
    (evaluate ⟨"c1", Role.CLIENT⟩ Action.DELETE Resource.SAMPLE
      (some (RecordCtx.sample none none))).allowed = false ∧
    (evaluate ⟨"a1", Role.ANALYST⟩ Action.READ Resource.SAMPLE none).allowed = true :=
  ⟨(contextRefinement_monotone ⟨"c1", Role.CLIENT⟩ Action.DELETE Resource.SAMPLE
      (some (RecordCtx.sample none none))).1 (by decide),
   (contextRefinement_monotone ⟨"a1", Role.ANALYST⟩ Action.READ Resource.SAMPLE
      none).2 (by decide)⟩

/-- Claim C8: the record-context ownership rules: an ANALYST acting on a
SAMPLE record with READ or UPDATE is allowed iff the sample is assigned to
the actor, and a CLIENT reading a REPORT record is allowed iff the report
is RELEASED and its owning sample's client is the actor. -/
theorem ownership_rules (actor : Actor) (a : Action)
    (au cl scl : Option String) (st : ReportStatus) :
    (actor.role = Role.ANALYST → (a = Action.READ ∨ a = Action.UPDATE) →
      ((evaluate actor a Resource.SAMPLE
          (some (RecordCtx.sample au cl))).allowed = true ↔ au = some actor.id)) ∧
    (actor.role = Role.CLIENT →
      ((evaluate actor Action.READ Resource.REPORT
          (some (RecordCtx.report st scl))).allowed = true ↔
        st = ReportStatus.RELEASED ∧ scl = some actor.id)) := by
  constructor
  · intro hrole hact
    rcases hact with rfl | rfl <;>
      · simp only [evaluate, hrole, caps, contextCheck]
        by_cases hau : au = some actor.id <;> simp [hau]
  · intro hrole
    simp only [evaluate, hrole, caps, contextCheck]
    by_cases hcond : st = ReportStatus.RELEASED ∧ scl = some actor.id <;> simp [hcond]

/-- Witness for C8: the assigned-analyst read is allowed and the released
matching-client report read is allowed, both via the iff at matching
ownership fields. -/
theorem ownership_rules_witness :
    ((evaluate ⟨"U1", Role.ANALYST⟩ Action.READ Resource.SAMPLE
        (some (RecordCtx.sample (some "U1") none))).allowed = true ↔
      (some "U1" : Option String) = some "U1") ∧
    ((evaluate ⟨"C1", Role.CLIENT⟩ Action.READ Resource.REPORT
        (some (RecordCtx.report ReportStatus.RELEASED (some "C1")))).allowed = true ↔
      ReportStatus.RELEASED = ReportStatus.RELEASED ∧
        (some "C1" : Option String) = some "C1") :=
  ⟨(ownership_rules ⟨"U1", Role.ANALYST⟩ Action.READ (some "U1") none none
      ReportStatus.DRAFT).1 rfl (Or.inl rfl),
   (ownership_rules ⟨"C1", Role.CLIENT⟩ Action.READ none none (some "C1")
      ReportStatus.RELEASED).2 rfl⟩

/-! ## Theorems: report release gating -/

/-- The update applied to the released report row. -/
def releaseStamp (id : String) (now : Nat) (x : Report) : Report :=
  if x.id == id then { x with status := .RELEASED, releasedAt := some now } else x

theorem find?_map_releaseStamp (db : List Report) (id : String) (now : Nat) :
    (db.map (releaseStamp id now)).find? (fun r => r.id == id) =
      (db.find? (fun r => r.id == id)).map (releaseStamp id now) := by
  induction db with
  | nil => rfl
  | cons x t ih =>
    have hid : (releaseStamp id now x).id = x.id := by
      by_cases h : x.id == id <;> simp [releaseStamp, h]
    by_cases h : (x.id == id) = true
    · have hfx : List.find? (fun r => r.id == id) (x :: t) = some x := by
        apply List.find?_cons_of_pos
        simpa using h
      have hfm : List.find? (fun r => r.id == id)
          (releaseStamp id now x :: List.map (releaseStamp id now) t) =
            some (releaseStamp id now x) := by
        apply List.find?_cons_of_pos
        simpa [hid] using h
      rw [List.map_cons, hfm, hfx]
      rfl
    · have hfx : List.find? (fun r => r.id == id) (x :: t) =
          List.find? (fun r => r.id == id) t := by
        apply List.find?_cons_of_neg
        simpa using h
      have hfm : List.find? (fun r => r.id == id)
          (releaseStamp id now x :: List.map (releaseStamp id now) t) =
            List.find? (fun r => r.id == id) (List.map (releaseStamp id now) t) := by
        apply List.find?_cons_of_neg
        simpa [hid] using h
      rw [List.map_cons, hfm, hfx, ih]

/-- Claim C10: releasing a report is gated on its workflow state: a
missing report fails with the not-found error, a report not in FINALIZED
status fails with the forbidden error (the store is not replaced in either
failure case, since `releaseReport` returns no state on error), and a
FINALIZED report is committed with status RELEASED and releasedAt stamped,
all other rows unchanged. -/
theorem releaseReport_gated (db : List Report) (id : String) (now : Nat) :
    (findUnique db id = none →
      releaseReport db id now = .error (.notFound "Report not found")) ∧
    (∀ r, findUnique db id = some r → r.status ≠ ReportStatus.FINALIZED →
      releaseReport db id now =
        .error (.forbidden "Report must be finalized before release")) ∧
    (∀ r, findUnique db id = some r → r.status = ReportStatus.FINALIZED →
      ∃ db', releaseReport db id now = .ok db' ∧
        findUnique db' id =
          some { r with status := .RELEASED, releasedAt := some now } ∧
        ∀ x ∈ db, x.id ≠ id → x ∈ db') := by
  refine ⟨fun h => by simp [releaseReport, h], fun r hr hst => by simp [releaseReport, hr, hst],
    fun r hr hst => ?_⟩
  refine ⟨db.map (releaseStamp id now), ?_, ?_, ?_⟩
  · simp only [releaseReport, hr, hst, ne_eq, not_true_eq_false, if_false]
    rfl
  · have hr' : List.find? (fun x => x.id == id) db = some r := hr
    have hrid := List.find?_some hr'
    simp only [beq_iff_eq] at hrid
    show (db.map (releaseStamp id now)).find? (fun x => x.id == id) = _
    rw [find?_map_releaseStamp, hr']
    simp [releaseStamp, hrid]
  · intro x hx hne
    have hxid : (x.id == id) = false := by
      simp only [beq_eq_false_iff_ne, ne_eq]
      exact hne
    have : releaseStamp id now x = x := by simp [releaseStamp, hxid]
    exact this ▸ List.mem_map_of_mem (releaseStamp id now) hx

/-- Witness for C10: releasing a FINALIZED report succeeds and stamps it,
and releasing a DRAFT report fails with the forbidden error. -/
theorem releaseReport_gated_witness :
    (∃ db', releaseReport [⟨"r1", ReportStatus.FINALIZED, none⟩] "r1" 5 = .ok db' ∧
        findUnique db' "r1" = some ⟨"r1", ReportStatus.RELEASED, some 5⟩ ∧
        ∀ x ∈ [(⟨"r1", ReportStatus.FINALIZED, none⟩ : Report)], x.id ≠ "r1" → x ∈ db') ∧
    releaseReport [⟨"r2", ReportStatus.DRAFT, none⟩] "r2" 5 =
      .error (.forbidden "Report must be finalized before release") :=
  ⟨(releaseReport_gated [⟨"r1", ReportStatus.FINALIZED, none⟩] "r1" 5).2.2
      ⟨"r1", ReportStatus.FINALIZED, none⟩ (by decide) (by decide),
   (releaseReport_gated [⟨"r2", ReportStatus.DRAFT, none⟩] "r2" 5).2.1
      ⟨"r2", ReportStatus.DRAFT, none⟩ (by decide) (by decide)⟩

/-! ## Theorems: audit atomicity, immutability, no-op updates -/

/-- Claim C2: the business mutation and its audit entry commit atomically:
a failed audit persist aborts the governed transaction (an error is
returned and the caller's state is not replaced), and every committed
state carries both the mutation and the audit entry, so no committed state
has a governed mutation without its audit entry. -/
theorem governed_atomic {α : Type} (mutate : α → α) (e : AuditEntry)
    (fault : Bool) (db : TxDb α) :
    (fault = true → runGoverned mutate e fault db =
      .error AuditWriteFailure.storageFault) ∧
    (∀ db', runGoverned mutate e fault db = .ok db' →
      db'.biz = mutate db.biz ∧ db'.audit = e :: db.audit) := by
  constructor
  · intro h
    subst h
    rfl
  · intro db' h
    cases fault
    · simp only [runGoverned, persistAudit, Bool.false_eq_true, if_false,
        Except.ok.injEq] at h
      subst h
      exact ⟨rfl, rfl⟩
    · simp [runGoverned, persistAudit] at h

/-- Witness for C2: with a faulting audit persist, the governed operation
aborts with the storage fault. -/
theorem governed_atomic_witness :
    runGoverned (fun n : Nat => n + 1)
      ⟨"e1", some "u1", none, .UPDATE, "Sample", "s1", [], none, 7, none, none, none⟩
      true ⟨0, []⟩ = .error AuditWriteFailure.storageFault :=
  (governed_atomic (fun n : Nat => n + 1)
      ⟨"e1", some "u1", none, .UPDATE, "Sample", "s1", [], none, 7, none, none, none⟩
      true ⟨0, []⟩).1 rfl

/-- Claim C3: persisted audit entries are immutable: any update or delete
attempt naming an existing entry is rejected with ImmutableEntryViolation
(and, the operations being state-passing, the store the caller holds is
untouched), and every subsystem operation that extends the store
(logCreate, logUpdate, logDelete) preserves every existing entry. -/
theorem auditEntry_immutable (store : List AuditEntry) (id : String)
    (e2 : AuditEntry) (h : ∃ e ∈ store, e.id = id) :
    updateEntry store id e2 = .error AuditStoreError.immutableEntryViolation ∧
    deleteEntry store id = .error AuditStoreError.immutableEntryViolation ∧
    ∀ (eid : String) (actor : Actor) (mail : Option String) (tbl rid : String)
      (fields : List String) (oldV newV : Snapshot) (ctx : RequestCtx)
      (txId : Option String) (now : Nat) (x : AuditEntry), x ∈ store →
        x ∈ logCreate eid actor mail tbl rid fields newV ctx txId now store ∧
        x ∈ logUpdate eid actor mail tbl rid fields oldV newV ctx txId now store ∧
        x ∈ logDelete eid actor mail tbl rid fields oldV ctx txId now store := by
  have hany : store.any (fun x => x.id == id) = true := by
    rcases h with ⟨e, he, hid⟩
    exact List.any_eq_true.mpr ⟨e, he, by simp [hid]⟩
  refine ⟨by simp [updateEntry, hany], by simp [deleteEntry, hany], ?_⟩
  intro eid actor mail tbl rid fields oldV newV ctx txId now x hx
  refine ⟨List.mem_cons_of_mem _ hx, ?_, List.mem_cons_of_mem _ hx⟩
  unfold logUpdate
  by_cases hc : (diffChanges fields (some oldV) (some newV)).isEmpty <;>
    simp [hc, List.mem_cons_of_mem, hx]

/-- Witness for C3: with one persisted entry, updating or deleting it is
rejected with ImmutableEntryViolation. -/
theorem auditEntry_immutable_witness :
    updateEntry
      [⟨"e1", some "u1", none, .CREATE, "Sample", "s1", [], none, 1, none, none, none⟩]
      "e1"
      ⟨"e9", some "u9", none, .UPDATE, "Sample", "s1", [], none, 2, none, none, none⟩ =
        .error AuditStoreError.immutableEntryViolation ∧
    deleteEntry
      [⟨"e1", some "u1", none, .CREATE, "Sample", "s1", [], none, 1, none, none, none⟩]
      "e1" = .error AuditStoreError.immutableEntryViolation := by
  have h := auditEntry_immutable
    [⟨"e1", some "u1", none, .CREATE, "Sample", "s1", [], none, 1, none, none, none⟩]
    "e1"
    ⟨"e9", some "u9", none, .UPDATE, "Sample", "s1", [], none, 2, none, none, none⟩
    ⟨⟨"e1", some "u1", none, .CREATE, "Sample", "s1", [], none, 1, none, none, none⟩,
      by decide, rfl⟩
  exact ⟨h.1, h.2.1⟩

/-- Claim C6: a logUpdate call in which every field's old value equals its
new value under normalized equality produces an empty changes mapping and
persists no audit entry: the store is returned unchanged. -/
theorem logUpdate_noop (eid : String) (actor : Actor) (mail : Option String)
    (tbl rid : String) (fields : List String) (oldV newV : Snapshot)
    (ctx : RequestCtx) (txId : Option String) (now : Nat)
    (store : List AuditEntry)
    (h : ∀ f ∈ fields, normEq (oldV f) (newV f) = true) :
    logUpdate eid actor mail tbl rid fields oldV newV ctx txId now store = store := by
  have hd : diffChanges fields (some oldV) (some newV) = [] := by
    rw [diffChanges, List.filterMap_eq_nil_iff]
    intro f hf
    simp [snapVal, h f hf]
  simp [logUpdate, hd]

/-- Witness for C6: an update whose only change is the serialization of an
unchanged timestamp writes no entry. -/
theorem logUpdate_noop_witness :
    logUpdate "e1" ⟨"u1", Role.ADMIN⟩ none "Sample" "s1" ["receivedAt"]
      (fun _ => Value.vTime 30 10) (fun _ => Value.vTime 30 0)
      ⟨none, none, none⟩ none 9 [] = [] :=
  logUpdate_noop "e1" ⟨"u1", Role.ADMIN⟩ none "Sample" "s1" ["receivedAt"]
    (fun _ => Value.vTime 30 10) (fun _ => Value.vTime 30 0)
    ⟨none, none, none⟩ none 9 [] (by decide)

/-! ## Theorems: ChangeDiffer -/

/-- Characterisation of membership in a diff: a field/change pair is
recorded exactly when the field is governed, its normalized values differ,
and the change carries the raw old/new values. -/
theorem mem_diffChanges (fields : List String) (b a : Option Snapshot)
    (f : String) (c : Change) :
    (f, c) ∈ diffChanges fields b a ↔
      f ∈ fields ∧ normEq (snapVal b f) (snapVal a f) = false ∧
        c = ⟨snapVal b f, snapVal a f⟩ := by
  rw [diffChanges, List.mem_filterMap]
  constructor
  · rintro ⟨f', hf', heq⟩
    by_cases hne : normEq (snapVal b f') (snapVal a f') = true
    · rw [if_pos hne] at heq
      exact absurd heq (by simp)
    · rw [if_neg hne] at heq
      injection heq with h1
      injection h1 with hf hc
      subst hf
      subst hc
      exact ⟨hf', by simpa using hne, rfl⟩
  · rintro ⟨hf, hne, rfl⟩
    exact ⟨f, hf, by simp [hne]⟩

/-- Claim C4: soundness and round-trip of the differ: a field key appears
in the output only if its value differs between the snapshots under
normalized equality (and the recorded change carries the raw old and new
values), and on normalized snapshots applying the recorded `new` values to
the before snapshot reproduces the after snapshot exactly on every
governed field. -/
theorem changeDiffer_sound_roundtrip (fields : List String)
    (before after : Snapshot)
    (hb : ∀ f ∈ fields, normValue (before f) = before f)
    (ha : ∀ f ∈ fields, normValue (after f) = after f) :
    (∀ f c, (f, c) ∈ diffChanges fields (some before) (some after) →
        normEq (before f) (after f) = false ∧ c.old = before f ∧ c.new = after f) ∧
    (∀ f ∈ fields,
      applyChanges before (diffChanges fields (some before) (some after)) f
        = after f) := by
  have hmem : ∀ f c, (f, c) ∈ diffChanges fields (some before) (some after) →
      normEq (before f) (after f) = false ∧ c.old = before f ∧ c.new = after f := by
    intro f c hm
    rw [mem_diffChanges] at hm
    obtain ⟨_, hne, rfl⟩ := hm
    exact ⟨by simpa [snapVal] using hne, rfl, rfl⟩
  refine ⟨hmem, ?_⟩
  intro f hf
  by_cases hne : normEq (before f) (after f) = true
  · have hfind :
        (diffChanges fields (some before) (some after)).find? (fun c => c.1 == f)
          = none := by
      rw [List.find?_eq_none]
      intro x hx hpx
      have hx' : (x.1, x.2) ∈ diffChanges fields (some before) (some after) := by
        simpa using hx
      have h1 := hmem x.1 x.2 hx'
      have hxf : x.1 = f := by simpa using hpx
      rw [hxf] at h1
      rw [h1.1] at hne
      exact absurd hne (by simp)
    have h2 : normValue (before f) = normValue (after f) := by
      simpa [normEq] using hne
    rw [hb f hf, ha f hf] at h2
    simp only [applyChanges, hfind]
    exact h2
  · have hmem2 : (f, (⟨before f, after f⟩ : Change)) ∈
        diffChanges fields (some before) (some after) := by
      rw [mem_diffChanges]
      exact ⟨hf, by simpa [snapVal] using hne, by simp [snapVal]⟩
    have hsome :
        ((diffChanges fields (some before) (some after)).find?
          (fun c => c.1 == f)).isSome := by
      rw [List.find?_isSome]
      exact ⟨_, hmem2, by simp⟩
    obtain ⟨y, hy⟩ := Option.isSome_iff_exists.mp hsome
    have hyf : y.1 = f := by simpa using List.find?_some hy
    have hymem : (y.1, y.2) ∈ diffChanges fields (some before) (some after) := by
      simpa using List.mem_of_find?_eq_some hy
    have h1 := hmem y.1 y.2 hymem
    simp only [applyChanges, hy]
    rw [hyf] at h1
    exact h1.2.2

/-- Witness for C4: on concrete normalized snapshots the round-trip holds
and only the changed field is reported. -/
theorem changeDiffer_sound_roundtrip_witness :
    (∀ f c, (f, c) ∈ diffChanges ["x", "y"]
        (some (fun f => if f = "x" then Value.vInt 1 else Value.vInt 5))
        (some (fun f => if f = "x" then Value.vInt 2 else Value.vInt 5)) →
      normEq ((fun f => if f = "x" then Value.vInt 1 else Value.vInt 5) f)
          ((fun f => if f = "x" then Value.vInt 2 else Value.vInt 5) f) = false ∧
        c.old = (fun f => if f = "x" then Value.vInt 1 else Value.vInt 5) f ∧
        c.new = (fun f => if f = "x" then Value.vInt 2 else Value.vInt 5) f) ∧
    (∀ f ∈ ["x", "y"],
      applyChanges (fun f => if f = "x" then Value.vInt 1 else Value.vInt 5)
        (diffChanges ["x", "y"]
          (some (fun f => if f = "x" then Value.vInt 1 else Value.vInt 5))
          (some (fun f => if f = "x" then Value.vInt 2 else Value.vInt 5))) f
        = (fun f => if f = "x" then Value.vInt 2 else Value.vInt 5) f) :=
  changeDiffer_sound_roundtrip ["x", "y"]
    (fun f => if f = "x" then Value.vInt 1 else Value.vInt 5)
    (fun f => if f = "x" then Value.vInt 2 else Value.vInt 5)
    (by decide) (by decide)

/-- Claim C5: shape of CREATE and DELETE entries: every change of a CREATE
entry has a null old value and a new value equal to the created record's
field, every non-null created field is recorded; dually for DELETE every
change has a null new value and an old value equal to the record's last
state, and every non-null last-state field is recorded. -/
theorem create_delete_entries (eid : String) (actor : Actor)
    (mail : Option String) (tbl rid : String) (fields : List String)
    (newV oldV : Snapshot) (ctx : RequestCtx) (txId : Option String)
    (now : Nat) :
    (∀ f c, (f, c) ∈
        (logCreateEntry eid actor mail tbl rid fields newV ctx txId now).changes →
      c.old = Value.vNull ∧ c.new = newV f) ∧
    (∀ f ∈ fields, normEq Value.vNull (newV f) = false →
      (f, (⟨Value.vNull, newV f⟩ : Change)) ∈
        (logCreateEntry eid actor mail tbl rid fields newV ctx txId now).changes) ∧
    (∀ f c, (f, c) ∈
        (logDeleteEntry eid actor mail tbl rid fields oldV ctx txId now).changes →
      c.new = Value.vNull ∧ c.old = oldV f) ∧
    (∀ f ∈ fields, normEq (oldV f) Value.vNull = false →
      (f, (⟨oldV f, Value.vNull⟩ : Change)) ∈
        (logDeleteEntry eid actor mail tbl rid fields oldV ctx txId now).changes) := by
  have hc : (logCreateEntry eid actor mail tbl rid fields newV ctx txId now).changes
      = diffChanges fields none (some newV) := rfl
  have hd : (logDeleteEntry eid actor mail tbl rid fields oldV ctx txId now).changes
      = diffChanges fields (some oldV) none := rfl
  refine ⟨?_, ?_, ?_, ?_⟩
  · intro f c hm
    rw [hc, mem_diffChanges] at hm
    obtain ⟨_, _, rfl⟩ := hm
    exact ⟨rfl, rfl⟩
  · intro f hf hne
    rw [hc, mem_diffChanges]
    exact ⟨hf, by simpa [snapVal] using hne, by simp [snapVal]⟩
  · intro f c hm
    rw [hd, mem_diffChanges] at hm
    obtain ⟨_, _, rfl⟩ := hm
    exact ⟨rfl, rfl⟩
  · intro f hf hne
    rw [hd, mem_diffChanges]
    exact ⟨hf, by simpa [snapVal] using hne, by simp [snapVal]⟩

/-- Witness for C5: a concrete created field is recorded as
null-to-value. -/
theorem create_delete_entries_witness :
    ("x", (⟨Value.vNull, Value.vInt 3⟩ : Change)) ∈
      (logCreateEntry "e1" ⟨"u1", Role.ADMIN⟩ none "Sample" "s1" ["x"]
        (fun _ => Value.vInt 3) ⟨none, none, none⟩ none 4).changes :=
  (create_delete_entries "e1" ⟨"u1", Role.ADMIN⟩ none "Sample" "s1" ["x"]
    (fun _ => Value.vInt 3) (fun _ => Value.vNull) ⟨none, none, none⟩ none 4).2.1
    "x" (by decide) (by decide)

/-! ## Theorems: audit query -/

/-- Element `i` of a list lies on the page that covers index `i` when the
list is cut into pages of `pp` elements. -/
theorem mem_take_drop_page {α : Type} (l : List α) (i pp : Nat) (hpp : 0 < pp)
    (hi : i < l.length) :
    l[i] ∈ (l.drop ((i / pp) * pp)).take pp := by
  have hk : (i / pp) * pp ≤ i := Nat.div_mul_le_self i pp
  have h1 : pp * (i / pp) + i % pp = i := Nat.div_add_mod i pp
  have h2 : i % pp < pp := Nat.mod_lt i hpp
  have h3 : (i / pp) * pp = pp * (i / pp) := Nat.mul_comm _ _
  have hjlen : i - (i / pp) * pp < ((l.drop ((i / pp) * pp)).take pp).length := by
    rw [List.length_take, List.length_drop, Nat.lt_min]
    omega
  have hje : ((l.drop ((i / pp) * pp)).take pp)[i - (i / pp) * pp] = l[i] := by
    rw [List.getElem_take, List.getElem_drop]
    congr 1
    omega
  exact hje ▸ List.getElem_mem hjlen

/-- The specification of one `auditQuery` result page: soundness of the
returned entries against the conjunctive filters, completeness across
pages, newest-first ordering, total count, page metadata, and page
length (so a boundary such as 51 matches with perPage 50 puts exactly one
entry on page 2). -/
def AuditQueryProp (store : List AuditEntry) (ft : AuditFilters)
    (page perPage : Nat) : Prop :=
  (∀ e ∈ (auditQuery store ft page perPage).logs,
      e ∈ store ∧ matchesFilters ft e = true) ∧
  (∀ e ∈ store, matchesFilters ft e = true →
      ∃ p, e ∈ (auditQuery store ft p perPage).logs) ∧
  List.Pairwise newerEq (auditQuery store ft page perPage).logs ∧
  (auditQuery store ft page perPage).total
    = (store.filter (matchesFilters ft)).length ∧
  (auditQuery store ft page perPage).page = page ∧
  (auditQuery store ft page perPage).perPage = perPage ∧
  (auditQuery store ft page perPage).totalPages
    = ((auditQuery store ft page perPage).total + perPage - 1) / perPage ∧
  (auditQuery store ft page perPage).logs.length
    = min perPage ((auditQuery store ft page perPage).total - (page - 1) * perPage)

/-- Claim C9: `auditQuery` returns exactly the entries satisfying the
conjunction of the supplied optional filters, newest-first, with correct
total and page metadata, and paginates correctly across page boundaries;
being a pure function it leaves the store unchanged. -/
theorem auditQuery_spec (store : List AuditEntry) (ft : AuditFilters)
    (page perPage : Nat) (hpp : 0 < perPage) :
    AuditQueryProp store ft page perPage := by
  have hlogs : ∀ p, (auditQuery store ft p perPage).logs =
      (((store.filter (matchesFilters ft)).insertionSort newerEq).drop
        ((p - 1) * perPage)).take perPage := fun _ => rfl
  have hsortmem : ∀ e, e ∈ (store.filter (matchesFilters ft)).insertionSort newerEq
      ↔ e ∈ store.filter (matchesFilters ft) := fun e =>
    List.mem_insertionSort newerEq
  refine ⟨?_, ?_, ?_, rfl, rfl, rfl, rfl, ?_⟩
  · intro e he
    rw [hlogs] at he
    have h1 : e ∈ (store.filter (matchesFilters ft)).insertionSort newerEq :=
      List.mem_of_mem_drop (List.mem_of_mem_take he)
    have h2 := (hsortmem e).mp h1
    exact List.mem_filter.mp h2
  · intro e he hm
    have h1 : e ∈ (store.filter (matchesFilters ft)).insertionSort newerEq :=
      (hsortmem e).mpr (List.mem_filter.mpr ⟨he, hm⟩)
    obtain ⟨i, hi, hie⟩ := List.mem_iff_getElem.mp h1
    refine ⟨i / perPage + 1, ?_⟩
    rw [hlogs, Nat.add_sub_cancel]
    exact hie ▸ mem_take_drop_page _ i perPage hpp hi
  · rw [hlogs]
    have hs : List.Pairwise newerEq
        ((store.filter (matchesFilters ft)).insertionSort newerEq) :=
      List.sorted_insertionSort newerEq (store.filter (matchesFilters ft))
    exact hs.sublist ((List.take_sublist _ _).trans (List.drop_sublist _ _))
  · rw [hlogs, List.length_take, List.length_drop,
      List.length_insertionSort]
    rfl

/-- Witness for C9: with 51 matching entries and perPage 50, page 2 of a
filterless query satisfies the full page specification, and in particular
holds exactly one entry. -/
theorem auditQuery_spec_witness :
    0 < 50 ∧
    AuditQueryProp
      ((List.range 51).map (fun i =>
        ⟨toString i, none, none, .CREATE, "Sample", "X", [], none, i, none, none, none⟩))
      ⟨none, none, none, none, none, none, none⟩ 2 50 ∧
    (auditQuery
      ((List.range 51).map (fun i =>
        ⟨toString i, none, none, .CREATE, "Sample", "X", [], none, i, none, none, none⟩))
      ⟨none, none, none, none, none, none, none⟩ 2 50).logs.length = 1 :=
  ⟨by decide,
   auditQuery_spec
     ((List.range 51).map (fun i =>
       ⟨toString i, none, none, .CREATE, "Sample", "X", [], none, i, none, none, none⟩))
     ⟨none, none, none, none, none, none, none⟩ 2 50 (by decide),
   by decide⟩

end Lims
